import Mathlib

/-!
Verification of the timeline renderer in
`src/legacy_video/simple_video_generator.py` (`EnhancedVideoGenerator`).

Strings are embedded as `List Char`; Python floats produced by dividing
frame indices by frame counts are embedded as exact rationals `ℚ`;
Python `int(x)` truncation is `pyInt`.  Frames are embedded as the trace
of drawing-primitive calls issued by the per-frame builder (the cv2
rasteriser itself is an external collaborator and is out of scope).
-/

namespace VideoGen

/-- Python `int(x)` for a rational: truncation toward zero. -/
def pyInt (q : ℚ) : ℤ := if 0 ≤ q then ⌊q⌋ else -⌊-q⌋

/-- `str.lower()` restricted to the basic-latin range handled by the inputs. -/
def pyLower (s : List Char) : List Char := s.map Char.toLower

/-- Character class `\d` of the regexes in `_detect_animation_type` /
`re.findall(r'\d+', ...)`, and Python digit parsing. -/
def pyIsDigit (c : Char) : Bool := c.isDigit

/-- Character class `\s` (whitespace), also the split class of `str.split()`. -/
def pyIsSpace (c : Char) : Bool := c.isWhitespace

/-- `a` is a prefix of `b` (boolean version, used by the substring scan). -/
def startsWithChars : List Char → List Char → Bool
  | [], _ => true
  | _ :: _, [] => false
  | a :: as, b :: bs => a = b && startsWithChars as bs

/-- Python `pat in s` substring test on character lists. -/
def containsChars (s pat : List Char) : Bool :=
  match s with
  | [] => pat.isEmpty
  | _ :: rest => startsWithChars pat s || containsChars rest pat

/-- Maximal runs of characters satisfying `p`; with `p = pyIsDigit` this is
`re.findall(r'\d+', s)` (line 120), with the negation of `\s` it is
`str.split()` (line 457). -/
def runsP (p : Char → Bool) : List Char → List (List Char)
  | [] => []
  | c :: rest =>
    if p c then
      match rest, runsP p rest with
      | d :: _, run :: more => if p d then (c :: run) :: more else [c] :: run :: more
      | _, tail => [c] :: tail
    else runsP p rest

/-- `int(digits)` for a token of decimal digits. -/
def digitsToNat (d : List Char) : ℕ := d.foldl (fun a c => 10 * a + (c.toNat - 48)) 0

/-- One attempted match of the regex `\d+\s*[\+\-]\s*\d+` anchored at the start
of `l` (line 98).  Since digits, whitespace and the operator characters are
pairwise disjoint classes, the greedy scan is exactly the regex semantics. -/
def matchNumOpAt (l : List Char) : Bool :=
  if (l.takeWhile pyIsDigit).isEmpty then false
  else
    match (l.dropWhile pyIsDigit).dropWhile pyIsSpace with
    | [] => false
    | c :: r3 =>
      if c = '+' || c = '-' then
        match r3.dropWhile pyIsSpace with
        | [] => false
        | d :: _ => pyIsDigit d
      else false

/-- `re.search(r'\d+\s*[\+\-]\s*\d+', s)` as a boolean: some start position
admits a match. -/
def searchNumOp : List Char → Bool
  | [] => false
  | c :: rest => matchNumOpAt (c :: rest) || searchNumOp rest

/-- The four animation types returned by `_detect_animation_type`
(lines 92-109). -/
inductive AnimType
  | mathAddition
  | mathFormula
  | theoremKind
  | stepByStep
deriving DecidableEq, Repr

/-- `_detect_animation_type` (lines 92-109).  The Python default
`formulas = None` is embedded as the empty list, so the guard
`if formulas and len(formulas) > 0` becomes non-emptiness. -/
def detectAnimationType (topic expl : List Char) (formulas : List (List Char)) : AnimType :=
  let topicLower := pyLower topic
  let explLower := pyLower expl
  if searchNumOp topicLower || searchNumOp explLower then .mathAddition
  else if containsChars topicLower "theorem".toList || containsChars topicLower "law".toList then
    .theoremKind
  else if !formulas.isEmpty then .mathFormula
  else .stepByStep

/-- BGR triples used by the generator's constructor (lines 21-25). -/
abbrev Color := ℕ × ℕ × ℕ

def bgColor : Color := (15, 15, 35)

def textColor : Color := (255, 255, 255)

def accentColor : Color := (100, 200, 255)

def successColor : Color := (100, 255, 100)

def warningColor : Color := (255, 200, 100)

/-- A frame is embedded as the ordered trace of drawing-primitive calls the
per-frame builder issues onto the (fully repainted) canvas. -/
inductive DrawOp
  | title (text : List Char) (alpha : ℚ)
  | objectsGroup (count : ℕ) (x y : ℤ) (alpha : ℚ) (label : List Char)
  | largeNumber (text : List Char) (x y : ℤ) (alpha : ℚ) (color : Color)
  | operatorGlyph (sym : List Char) (x y : ℤ) (alpha : ℚ)
  | centeredFormula (text : List Char) (y : ℤ) (alpha : ℚ)
  | wrappedExplanation (text : List Char) (startY : ℤ) (alpha : ℚ)
  | rightTriangle (alpha : ℚ)
  | conclusion (text : List Char) (alpha : ℚ)
deriving DecidableEq, Repr

abbrev Frame := List DrawOp

/-- `_create_step_by_step_frame` (lines 395-427). -/
def createStepByStepFrame (frameNum totalFrames : ℕ) (topic expl : List Char)
    (formulas : List (List Char)) : Frame :=
  let p : ℚ := (frameNum : ℚ) / (totalFrames : ℚ)
  if p < 2/10 then [.title topic (p / (2/10))]
  else if p < 7/10 then [.title topic 1, .wrappedExplanation expl 200 ((p - 2/10) / (5/10))]
  else if p < 9/10 then
    [.title topic 1, .wrappedExplanation expl 200 1] ++
      match formulas with
      | [] => []
      | f :: _ => [.centeredFormula f 550 ((p - 7/10) / (2/10))]
  else [.conclusion topic ((p - 9/10) / (1/10))]

/-- `_create_math_addition_frame` (lines 111-181).  `self.width // 2 = 640`. -/
def createMathAdditionFrame (frameNum totalFrames : ℕ) (topic expl : List Char)
    (formulas : List (List Char)) : Frame :=
  let p : ℚ := (frameNum : ℚ) / (totalFrames : ℚ)
  match runsP pyIsDigit (topic ++ ' ' :: expl) with
  | n1 :: n2 :: _ =>
    let num1 := digitsToNat n1
    let num2 := digitsToNat n2
    let result := num1 + num2
    if p < 15/100 then [.title topic (p / (15/100))]
    else if p < 35/100 then
      let sp := (p - 15/100) / (2/10)
      [.title topic 1,
       .objectsGroup num1 200 300 sp "First Group".toList,
       .largeNumber (Nat.toDigits 10 num1) 200 500 sp accentColor]
    else if p < 45/100 then
      [.title topic 1,
       .objectsGroup num1 200 300 1 "First Group".toList,
       .largeNumber (Nat.toDigits 10 num1) 200 500 1 accentColor,
       .operatorGlyph "+".toList 640 400 ((p - 35/100) / (1/10))]
    else if p < 65/100 then
      let sp := (p - 45/100) / (2/10)
      [.title topic 1,
       .objectsGroup num1 200 300 1 "First Group".toList,
       .largeNumber (Nat.toDigits 10 num1) 200 500 1 accentColor,
       .operatorGlyph "+".toList 640 400 1,
       .objectsGroup num2 1080 300 sp "Second Group".toList,
       .largeNumber (Nat.toDigits 10 num2) 1080 500 sp accentColor]
    else if p < 85/100 then
      let sp := (p - 65/100) / (2/10)
      let offset : ℤ := pyInt (sp * 300)
      [.title topic 1,
       .objectsGroup num1 (200 + offset) 300 1 [],
       .objectsGroup num2 (1080 - offset) 300 1 []] ++
      (if sp > 1/2 then
        [.operatorGlyph "=".toList 640 550 ((sp - 1/2) / (1/2)),
         .largeNumber (Nat.toDigits 10 result) 640 600 ((sp - 1/2) / (1/2)) successColor]
       else [])
    else
      [.conclusion (Nat.toDigits 10 num1 ++ " + ".toList ++ Nat.toDigits 10 num2
          ++ " = ".toList ++ Nat.toDigits 10 result) ((p - 85/100) / (15/100))]
  | _ => createStepByStepFrame frameNum totalFrames topic expl formulas

/-- `_create_formula_explanation_frame` (lines 268-302). -/
def createFormulaExplanationFrame (frameNum totalFrames : ℕ) (topic expl : List Char)
    (formulas : List (List Char)) : Frame :=
  let p : ℚ := (frameNum : ℚ) / (totalFrames : ℚ)
  if p < 15/100 then [.title topic (p / (15/100))]
  else if p < 40/100 then
    [.title topic 1] ++
      match formulas with
      | [] => []
      | f :: _ => [.centeredFormula f 200 ((p - 15/100) / (25/100))]
  else if p < 80/100 then
    ([.title topic 1] ++
      (match formulas with
       | [] => []
       | f :: _ => [.centeredFormula f 200 1])) ++
      [.wrappedExplanation expl 350 ((p - 40/100) / (40/100))]
  else
    let formulaText := match formulas with | [] => topic | f :: _ => f
    [.conclusion formulaText ((p - 80/100) / (20/100))]

/-- `_create_pythagorean_frame` (lines 319-351). -/
def createPythagoreanFrame (frameNum totalFrames : ℕ) (topic expl : List Char)
    (formulas : List (List Char)) : Frame :=
  let p : ℚ := (frameNum : ℚ) / (totalFrames : ℚ)
  if p < 15/100 then [.title topic (p / (15/100))]
  else if p < 50/100 then [.title topic 1, .rightTriangle ((p - 15/100) / (35/100))]
  else if p < 75/100 then
    [.title topic 1, .rightTriangle 1] ++
      match formulas with
      | [] => []
      | f :: _ => [.centeredFormula f 550 ((p - 50/100) / (25/100))]
  else
    let formulaText := match formulas with | [] => "a² + b² = c²".toList | f :: _ => f
    [.conclusion formulaText ((p - 75/100) / (25/100))]

/-- `_create_theorem_frame` (lines 304-317). -/
def createTheoremFrame (frameNum totalFrames : ℕ) (topic expl : List Char)
    (formulas : List (List Char)) : Frame :=
  if containsChars (pyLower topic) "pythag".toList then
    createPythagoreanFrame frameNum totalFrames topic expl formulas
  else createStepByStepFrame frameNum totalFrames topic expl formulas

/-- The per-frame type dispatch inside `generate_video`'s loop (lines 62-78). -/
def buildFrame (anim : AnimType) (frameNum totalFrames : ℕ) (topic expl : List Char)
    (formulas : List (List Char)) : Frame :=
  match anim with
  | .mathAddition => createMathAdditionFrame frameNum totalFrames topic expl formulas
  | .mathFormula => createFormulaExplanationFrame frameNum totalFrames topic expl formulas
  | .theoremKind => createTheoremFrame frameNum totalFrames topic expl formulas
  | .stepByStep => createStepByStepFrame frameNum totalFrames topic expl formulas

/-- The frame loop `for frame_num in range(total_frames)` (lines 59-80): each
iteration recomputes its frame from `frame_num` and the static inputs only. -/
def renderedFrames (anim : AnimType) (totalFrames : ℕ) (topic expl : List Char)
    (formulas : List (List Char)) : List Frame :=
  (List.range totalFrames).map fun n => buildFrame anim n totalFrames topic expl formulas

/-- Stage boundaries of the math-addition chain: the `elif` thresholds are the
ends, the offsets subtracted in each `section_progress` are the starts
(lines 127-176). -/
def mathAdditionStages : List (ℚ × ℚ) :=
  [(0, 15/100), (15/100, 35/100), (35/100, 45/100), (45/100, 65/100), (65/100, 85/100), (85/100, 1)]

/-- Stage boundaries of the formula-explanation chain (lines 276-300). -/
def formulaStages : List (ℚ × ℚ) :=
  [(0, 15/100), (15/100, 40/100), (40/100, 80/100), (80/100, 1)]

/-- Stage boundaries of the Pythagorean-theorem chain (lines 326-349). -/
def pythagoreanStages : List (ℚ × ℚ) :=
  [(0, 15/100), (15/100, 50/100), (50/100, 75/100), (75/100, 1)]

/-- Stage boundaries of the step-by-step chain (lines 403-425). -/
def stepByStepStages : List (ℚ × ℚ) :=
  [(0, 2/10), (2/10, 7/10), (7/10, 9/10), (9/10, 1)]

/-- Which stage chain a content kind renders with; the non-Pythagorean
theorem branch delegates to the step-by-step chain (line 317). -/
def stagesOf : AnimType → List (ℚ × ℚ)
  | .mathAddition => mathAdditionStages
  | .mathFormula => formulaStages
  | .theoremKind => pythagoreanStages
  | .stepByStep => stepByStepStages

/-- The `if progress < e0 / elif progress < e1 / ... / else` chain: index of
the first stage whose end bound exceeds `p`, with the final `else` branch
unconditional. -/
def chainSelect (p : ℚ) : List (ℚ × ℚ) → ℕ
  | [] => 0
  | se :: rest =>
    match rest with
    | [] => 0
    | _ :: _ => if p < se.2 then 0 else chainSelect p rest + 1

/-- `p` lies in stage `i`'s half-open range. -/
def InStage (stages : List (ℚ × ℚ)) (i : ℕ) (p : ℚ) : Prop :=
  i < stages.length ∧ (stages.getD i (0, 1)).1 ≤ p ∧ p < (stages.getD i (0, 1)).2

/-- The `section_progress` computed by the selected branch:
`(progress - start) / (end - start)` with the literal widths of the source. -/
def localProg (stages : List (ℚ × ℚ)) (p : ℚ) : ℚ :=
  let se := stages.getD (chainSelect p stages) (0, 1)
  (p - se.1) / (se.2 - se.1)

/-- Each stage's end coincides with the next stage's start. -/
def stageAdjB : List (ℚ × ℚ) → Bool
  | [] => true
  | [_] => true
  | se :: se' :: rest => se.2 == se'.1 && stageAdjB (se' :: rest)

/-- Every stage has a positive width. -/
def stageIncrB (stages : List (ℚ × ℚ)) : Bool :=
  stages.all fun se => decide (se.1 < se.2)

/-- Trace of `_draw_objects_group` (lines 183-229).  One `marker` op stands
for the shadow/ball/highlight circle triple drawn per object. -/
inductive GalleryOp
  | labelText (text : List Char) (x y : ℤ)
  | marker (x y : ℤ)
  | countSuffix (text : List Char) (x y : ℤ)
deriving DecidableEq, Repr

/-- `visible_count = min(count, 10)` (line 186). -/
def galleryVisibleCount (count : ℕ) : ℕ := min count 10

/-- `items_to_show = int(visible_count * alpha)` (line 187). -/
def galleryItemsToShow (count : ℕ) (alpha : ℚ) : ℕ :=
  (pyInt ((galleryVisibleCount count : ℚ) * alpha)).toNat

/-- `cols = min(5, visible_count)` (line 193). -/
def galleryCols (count : ℕ) : ℕ := min 5 (galleryVisibleCount count)

/-- `rows = (visible_count + cols - 1) // cols` (line 194). -/
def galleryRows (count : ℕ) : ℕ :=
  (galleryVisibleCount count + galleryCols count - 1) / galleryCols count

/-- `start_x = x - (cols * spacing) // 2` (line 197). -/
def galleryStartX (count : ℕ) (x : ℤ) : ℤ := x - ((galleryCols count * 60) / 2 : ℕ)

/-- `start_y = y - (rows * spacing) // 2` (line 198). -/
def galleryStartY (count : ℕ) (y : ℤ) : ℤ := y - ((galleryRows count * 60) / 2 : ℕ)

/-- `_draw_objects_group` (lines 183-229) as the trace of ops it draws; the
early return on `items_to_show == 0` (lines 189-190) yields the empty trace. -/
def drawObjectsGroup (count : ℕ) (x y : ℤ) (alpha : ℚ) (label : List Char) : List GalleryOp :=
  let items := galleryItemsToShow count alpha
  if items = 0 then []
  else
    let cols := galleryCols count
    let startX := galleryStartX count x
    let startY := galleryStartY count y
    (if label ≠ [] ∧ 1/2 < alpha then [GalleryOp.labelText label startX (startY - 40)] else [])
    ++ ((List.range items).map fun i =>
         GalleryOp.marker (startX + ((i % cols : ℕ) : ℤ) * 60) (startY + ((i / cols : ℕ) : ℤ) * 60))
    ++ (if 10 < count then
         [GalleryOp.countSuffix ('x' :: Nat.toDigits 10 count)
           (galleryStartX count x) (galleryStartY count y + (galleryRows count * 60 : ℕ) + 40)]
       else [])

def isMarkerOp : GalleryOp → Bool
  | .marker _ _ => true
  | _ => false

def isSuffixOp : GalleryOp → Bool
  | .countSuffix _ _ _ => true
  | _ => false

/-- `" ".join(words)`. -/
def joinSp (xs : List (List Char)) : List Char := List.intercalate [' '] xs

/-- The greedy word-wrap loop of `_draw_wrapped_explanation` (lines 458-472),
with `words` remaining and `current` the open line. -/
def wrapLoop : List (List Char) → List (List Char) → List (List Char)
  | [], current => if current.isEmpty then [] else [joinSp current]
  | w :: ws, current =>
    if (joinSp (current ++ [w])).length ≤ 70 then wrapLoop ws (current ++ [w])
    else if current.isEmpty then wrapLoop ws [w]
    else joinSp current :: wrapLoop ws [w]

/-- `text.split()` (line 457). -/
def splitWords (text : List Char) : List (List Char) := runsP (fun c => !pyIsSpace c) text

/-- The wrapped lines after the `lines[:10]` cap (line 474). -/
def wrapText (text : List Char) : List (List Char) := (wrapLoop (splitWords text) []).take 10

/-- `num_lines_to_show = min(len(lines), int(len(lines) * alpha) + 1)`
(line 476). -/
def numLinesToShow (lineCount : ℕ) (alpha : ℚ) : ℕ :=
  min lineCount ((pyInt ((lineCount : ℚ) * alpha)).toNat + 1)

/-- The lines the primitive actually draws: `lines[:num_lines_to_show]`
(line 483). -/
def drawnLines (text : List Char) (alpha : ℚ) : List (List Char) :=
  (wrapText text).take (numLinesToShow (wrapText text).length alpha)

/-- The truncation at the head of `_draw_title` (lines 431-432). -/
def truncateTitle (t : List Char) : List Char :=
  if 50 < t.length then t.take 47 ++ "...".toList else t

/-- `line_length = int(text_size[0] * alpha)` (line 452), with the measured
text width as a parameter (`cv2.getTextSize` is external). -/
def underlineLength (textWidth : ℕ) (alpha : ℚ) : ℤ := pyInt ((textWidth : ℚ) * alpha)

/-- Outcomes of the external writer calls inside `generate_video`'s `try`
block: whether `cv2.VideoWriter` opens, and whether building/writing frame
`n` raises. -/
structure RenderEnv where
  openOk : Bool
  writeOk : ℕ → Bool

/-- `filename = f"{video_id}.mp4"` joined below `videos_dir` (lines 41-42). -/
def videoPath (videosDir videoId : List Char) : List Char :=
  videosDir ++ '/' :: (videoId ++ ".mp4".toList)

/-- Number of frames written before the first failing external call. -/
def framesWrittenCount (env : RenderEnv) (total : ℕ) : ℕ :=
  ((List.range total).takeWhile env.writeOk).length

/-- `generate_video` (lines 27-90): the whole multi-frame render sits in one
`try`; any failure is caught and `None` is returned.  The first component is
the returned value, the second the frames that reached the output file. -/
def generateVideo (env : RenderEnv) (videosDir videoId topic expl : List Char)
    (formulas : List (List Char)) (duration : ℕ) : Option (List Char) × List Frame :=
  let total := duration * 30
  let anim := detectAnimationType topic expl formulas
  let frames := renderedFrames anim total topic expl formulas
  if !env.openOk then (none, [])
  else if framesWrittenCount env total = total then (some (videoPath videosDir videoId), frames)
  else (none, frames.take (framesWrittenCount env total))

/-- Declarative semantics of the regex `\d+\s*[\+\-]\s*\d+`: somewhere in `s`
sit one-or-more digits, optional whitespace, a `+` or `-`, optional
whitespace, and a digit. -/
def NumOpPattern (s : List Char) : Prop :=
  ∃ pre d1 w1 op w2 c post,
    s = pre ++ (d1 ++ (w1 ++ op :: (w2 ++ c :: post))) ∧
    d1 ≠ [] ∧ (∀ x ∈ d1, pyIsDigit x = true) ∧ (∀ x ∈ w1, pyIsSpace x = true) ∧
    (op = '+' ∨ op = '-') ∧ (∀ x ∈ w2, pyIsSpace x = true) ∧ pyIsDigit c = true

theorem space_not_digit {c : Char} (h : pyIsSpace c = true) : pyIsDigit c = false := by
  revert h
  simp only [pyIsSpace, Char.isWhitespace, pyIsDigit, Bool.or_eq_true, decide_eq_true_eq]
  rintro (((rfl | rfl) | rfl) | rfl) <;> decide

theorem digit_not_space {c : Char} (h : pyIsDigit c = true) : pyIsSpace c = false := by
  cases hs : pyIsSpace c with
  | false => rfl
  | true => rw [space_not_digit hs] at h; cases h

theorem op_not_digit {c : Char} (h : c = '+' ∨ c = '-') : pyIsDigit c = false := by
  rcases h with rfl | rfl <;> decide

theorem op_not_space {c : Char} (h : c = '+' ∨ c = '-') : pyIsSpace c = false := by
  rcases h with rfl | rfl <;> decide

theorem takeWhile_append_all {p : Char → Bool} {a : List Char} (b : List Char)
    (h : ∀ x ∈ a, p x = true) :
    (a ++ b).takeWhile p = a ++ b.takeWhile p := by
  induction a with
  | nil => simp
  | cons x xs ih =>
    simp only [List.cons_append, List.takeWhile_cons_of_pos (h x (by simp)), List.cons.injEq,
      true_and]
    exact ih fun y hy => h y (by simp [hy])

theorem dropWhile_append_all {p : Char → Bool} {a : List Char} (b : List Char)
    (h : ∀ x ∈ a, p x = true) :
    (a ++ b).dropWhile p = b.dropWhile p := by
  induction a with
  | nil => simp
  | cons x xs ih =>
    simp only [List.cons_append, List.dropWhile_cons_of_pos (h x (by simp))]
    exact ih fun y hy => h y (by simp [hy])

theorem matchNumOpAt_of_parts {d1 w1 w2 post : List Char} {op c : Char}
    (hd1 : d1 ≠ []) (hda : ∀ x ∈ d1, pyIsDigit x = true) (hw1 : ∀ x ∈ w1, pyIsSpace x = true)
    (hop : op = '+' ∨ op = '-') (hw2 : ∀ x ∈ w2, pyIsSpace x = true) (hc : pyIsDigit c = true) :
    matchNumOpAt (d1 ++ (w1 ++ op :: (w2 ++ c :: post))) = true := by
  have htail : (w1 ++ op :: (w2 ++ c :: post)).takeWhile pyIsDigit = [] := by
    cases w1 with
    | nil => exact List.takeWhile_cons_of_neg (by simp [op_not_digit hop])
    | cons a as =>
      exact List.takeWhile_cons_of_neg (by simp [space_not_digit (hw1 a (by simp))])
  have htake : (d1 ++ (w1 ++ op :: (w2 ++ c :: post))).takeWhile pyIsDigit = d1 := by
    rw [takeWhile_append_all _ hda, htail, List.append_nil]
  have hdroptail : (w1 ++ op :: (w2 ++ c :: post)).dropWhile pyIsDigit
      = w1 ++ op :: (w2 ++ c :: post) := by
    cases w1 with
    | nil => exact List.dropWhile_cons_of_neg (by simp [op_not_digit hop])
    | cons a as =>
      exact List.dropWhile_cons_of_neg (by simp [space_not_digit (hw1 a (by simp))])
  have hdrop : (d1 ++ (w1 ++ op :: (w2 ++ c :: post))).dropWhile pyIsDigit
      = w1 ++ op :: (w2 ++ c :: post) := by
    rw [dropWhile_append_all _ hda, hdroptail]
  have hsp1 : (w1 ++ op :: (w2 ++ c :: post)).dropWhile pyIsSpace = op :: (w2 ++ c :: post) := by
    rw [dropWhile_append_all _ hw1]
    exact List.dropWhile_cons_of_neg (by simp [op_not_space hop])
  have hsp2 : (w2 ++ c :: post).dropWhile pyIsSpace = c :: post := by
    rw [dropWhile_append_all _ hw2]
    exact List.dropWhile_cons_of_neg (by simp [digit_not_space hc])
  unfold matchNumOpAt
  rw [htake, hdrop, hsp1]
  simp only [List.isEmpty_iff]
  rw [if_neg hd1]
  have hopb : (op = '+' || op = '-') = true := by
    rcases hop with rfl | rfl <;> decide
  rw [hopb]
  simp only [if_true, hsp2]
  exact hc

theorem parts_of_matchNumOpAt {l : List Char} (h : matchNumOpAt l = true) :
    ∃ d1 w1 op w2 c post,
      l = d1 ++ (w1 ++ op :: (w2 ++ c :: post)) ∧
      d1 ≠ [] ∧ (∀ x ∈ d1, pyIsDigit x = true) ∧ (∀ x ∈ w1, pyIsSpace x = true) ∧
      (op = '+' ∨ op = '-') ∧ (∀ x ∈ w2, pyIsSpace x = true) ∧ pyIsDigit c = true := by
  unfold matchNumOpAt at h
  by_cases he : (l.takeWhile pyIsDigit).isEmpty
  · rw [if_pos he] at h; cases h
  · rw [if_neg he] at h
    rcases hm : (l.dropWhile pyIsDigit).dropWhile pyIsSpace with _ | ⟨opc, r3⟩
    · simp only [hm] at h; cases h
    · simp only [hm] at h
      by_cases hob : (opc = '+' || opc = '-') = true
      · rw [if_pos hob] at h
        rcases hm2 : r3.dropWhile pyIsSpace with _ | ⟨dc, post⟩
        · simp only [hm2] at h; cases h
        · simp only [hm2] at h
          refine ⟨l.takeWhile pyIsDigit, (l.dropWhile pyIsDigit).takeWhile pyIsSpace, opc,
            r3.takeWhile pyIsSpace, dc, post, ?_, ?_, ?_, ?_, ?_, ?_, h⟩
          · conv_lhs => rw [← List.takeWhile_append_dropWhile (p := pyIsDigit) (l := l)]
            congr 1
            conv_lhs =>
              rw [← List.takeWhile_append_dropWhile (p := pyIsSpace) (l := l.dropWhile pyIsDigit)]
            rw [hm]
            congr 1
            conv_lhs => rw [← List.takeWhile_append_dropWhile (p := pyIsSpace) (l := r3)]
            rw [hm2]
          · simpa [List.isEmpty_iff] using he
          · exact fun x hx => List.mem_takeWhile_imp hx
          · exact fun x hx => List.mem_takeWhile_imp hx
          · simpa using hob
          · exact fun x hx => List.mem_takeWhile_imp hx
      · rw [if_neg hob] at h; cases h

theorem searchNumOp_iff (s : List Char) : searchNumOp s = true ↔ NumOpPattern s := by
  induction s with
  | nil =>
    constructor
    · intro h; simp [searchNumOp] at h
    · rintro ⟨pre, d1, w1, op, w2, c, post, heq, -, -⟩
      have := congrArg List.length heq
      simp at this
      omega
  | cons a rest ih =>
    simp only [searchNumOp, Bool.or_eq_true, ih]
    constructor
    · rintro (hm | hp)
      · obtain ⟨d1, w1, op, w2, c, post, heq, h1, h2, h3, h4, h5, h6⟩ := parts_of_matchNumOpAt hm
        exact ⟨[], d1, w1, op, w2, c, post, by simpa using heq, h1, h2, h3, h4, h5, h6⟩
      · obtain ⟨pre, d1, w1, op, w2, c, post, heq, h1, h2, h3, h4, h5, h6⟩ := hp
        exact ⟨a :: pre, d1, w1, op, w2, c, post, by simp [heq], h1, h2, h3, h4, h5, h6⟩
    · rintro ⟨pre, d1, w1, op, w2, c, post, heq, h1, h2, h3, h4, h5, h6⟩
      cases pre with
      | nil =>
        left
        rw [show a :: rest = d1 ++ (w1 ++ op :: (w2 ++ c :: post)) from by simpa using heq]
        exact matchNumOpAt_of_parts h1 h2 h3 h4 h5 h6
      | cons b pre' =>
        right
        have heq2 := heq
        simp only [List.cons_append] at heq2
        injection heq2 with _ heq'
        exact ⟨pre', d1, w1, op, w2, c, post, heq', h1, h2, h3, h4, h5, h6⟩

theorem startsWithChars_iff (p s : List Char) : startsWithChars p s = true ↔ p <+: s := by
  induction p generalizing s with
  | nil => simp [startsWithChars]
  | cons a as ih =>
    cases s with
    | nil =>
      simp [startsWithChars]
    | cons b bs =>
      simp only [startsWithChars, Bool.and_eq_true, decide_eq_true_eq, ih,
        List.cons_prefix_cons]

theorem containsChars_iff (s p : List Char) : containsChars s p = true ↔ p <:+: s := by
  induction s with
  | nil => simp [containsChars, List.isEmpty_iff]
  | cons a rest ih =>
    simp only [containsChars, Bool.or_eq_true, startsWithChars_iff, ih, List.infix_cons_iff]

/-- C2: `_detect_animation_type` is a total deterministic function of
`(topic, explanation, formulas)` into the four kinds, tested in strict
priority order: numeric `\d+\s*[\+\-]\s*\d+` pattern on lowercased topic or
explanation first, then `"theorem"`/`"law"` in the lowercased topic, then
non-emptiness of `formulas`, else the step-by-step kind (lines 92-109). -/
theorem detect_animation_type_priority (topic expl : List Char) (formulas : List (List Char)) :
    (detectAnimationType topic expl formulas = .mathAddition ↔
      NumOpPattern (pyLower topic) ∨ NumOpPattern (pyLower expl)) ∧
    (detectAnimationType topic expl formulas = .theoremKind ↔
      ¬(NumOpPattern (pyLower topic) ∨ NumOpPattern (pyLower expl)) ∧
      ("theorem".toList <:+: pyLower topic ∨ "law".toList <:+: pyLower topic)) ∧
    (detectAnimationType topic expl formulas = .mathFormula ↔
      ¬(NumOpPattern (pyLower topic) ∨ NumOpPattern (pyLower expl)) ∧
      ¬("theorem".toList <:+: pyLower topic ∨ "law".toList <:+: pyLower topic) ∧
      formulas ≠ []) ∧
    (detectAnimationType topic expl formulas = .stepByStep ↔
      ¬(NumOpPattern (pyLower topic) ∨ NumOpPattern (pyLower expl)) ∧
      ¬("theorem".toList <:+: pyLower topic ∨ "law".toList <:+: pyLower topic) ∧
      formulas = []) := by
  have hnum : (searchNumOp (pyLower topic) || searchNumOp (pyLower expl)) = true ↔
      NumOpPattern (pyLower topic) ∨ NumOpPattern (pyLower expl) := by
    simp [searchNumOp_iff]
  have hth : (containsChars (pyLower topic) "theorem".toList
        || containsChars (pyLower topic) "law".toList) = true ↔
      "theorem".toList <:+: pyLower topic ∨ "law".toList <:+: pyLower topic := by
    simp [containsChars_iff]
  unfold detectAnimationType
  by_cases h1 : (searchNumOp (pyLower topic) || searchNumOp (pyLower expl)) = true
  · rw [if_pos h1]
    have hP := hnum.1 h1
    exact ⟨iff_of_true rfl hP, iff_of_false (by decide) fun hh => hh.1 hP,
      iff_of_false (by decide) fun hh => hh.1 hP,
      iff_of_false (by decide) fun hh => hh.1 hP⟩
  · rw [if_neg h1]
    have hnP : ¬(NumOpPattern (pyLower topic) ∨ NumOpPattern (pyLower expl)) :=
      fun hp => h1 (hnum.2 hp)
    by_cases h2 : (containsChars (pyLower topic) "theorem".toList
        || containsChars (pyLower topic) "law".toList) = true
    · rw [if_pos h2]
      have hQ := hth.1 h2
      exact ⟨iff_of_false (by decide) hnP, iff_of_true rfl ⟨hnP, hQ⟩,
        iff_of_false (by decide) fun hh => hh.2.1 hQ,
        iff_of_false (by decide) fun hh => hh.2.1 hQ⟩
    · rw [if_neg h2]
      have hnQ : ¬("theorem".toList <:+: pyLower topic ∨ "law".toList <:+: pyLower topic) :=
        fun hq => h2 (hth.2 hq)
      by_cases h3 : formulas.isEmpty
      · rw [if_neg (by simp [h3])]
        have hR : formulas = [] := List.isEmpty_iff.1 h3
        exact ⟨iff_of_false (by decide) hnP, iff_of_false (by decide) fun hh => hnQ hh.2,
          iff_of_false (by decide) fun hh => hh.2.2 hR, iff_of_true rfl ⟨hnP, hnQ, hR⟩⟩
      · rw [if_pos (by simp [h3])]
        have hnR : formulas ≠ [] := fun hr => h3 (by simp [hr])
        exact ⟨iff_of_false (by decide) hnP, iff_of_false (by decide) fun hh => hnQ hh.2,
          iff_of_true rfl ⟨hnP, hnQ, hnR⟩, iff_of_false (by decide) fun hh => hnR hh.2.2⟩

theorem chainSelect_singleton (p : ℚ) (se : ℚ × ℚ) : chainSelect p [se] = 0 := rfl

theorem chainSelect_pair (p : ℚ) (se se2 : ℚ × ℚ) (rest : List (ℚ × ℚ)) :
    chainSelect p (se :: se2 :: rest) =
      if p < se.2 then 0 else chainSelect p (se2 :: rest) + 1 := rfl

theorem chainSelect_correct (stages : List (ℚ × ℚ)) (p : ℚ) :
    stages ≠ [] → stageAdjB stages = true →
    (stages.getD 0 (0, 1)).1 ≤ p → p < (stages.getD (stages.length - 1) (0, 1)).2 →
    InStage stages (chainSelect p stages) p := by
  induction stages with
  | nil => intro h; exact absurd rfl h
  | cons se rest ih =>
    intro _ hadj hstart hend
    cases rest with
    | nil =>
      exact ⟨by simp [chainSelect_singleton], by simpa [chainSelect_singleton] using hstart,
        by simpa [chainSelect_singleton] using hend⟩
    | cons se2 rest2 =>
      have hadj2 : se.2 = se2.1 ∧ stageAdjB (se2 :: rest2) = true := by
        have := hadj
        simp only [stageAdjB, Bool.and_eq_true, beq_iff_eq] at this
        exact this
      by_cases hp : p < se.2
      · refine ⟨?_, ?_, ?_⟩
        · rw [chainSelect_pair, if_pos hp]; simp
        · rw [chainSelect_pair, if_pos hp]; simpa using hstart
        · rw [chainSelect_pair, if_pos hp]; simpa using hp
      · have hstart2 : ((se2 :: rest2).getD 0 (0, 1)).1 ≤ p := by
          simpa [← hadj2.1] using le_of_not_lt hp
        have hend2 : p < ((se2 :: rest2).getD ((se2 :: rest2).length - 1) (0, 1)).2 := by
          simpa [List.getD_cons_succ] using hend
        have hrec := ih (by simp) hadj2.2 hstart2 hend2
        refine ⟨?_, ?_, ?_⟩
        · rw [chainSelect_pair, if_neg hp]
          simpa using Nat.succ_lt_succ hrec.1
        · rw [chainSelect_pair, if_neg hp]
          simpa [List.getD_cons_succ] using hrec.2.1
        · rw [chainSelect_pair, if_neg hp]
          simpa [List.getD_cons_succ] using hrec.2.2

theorem inStage_head_le {stages : List (ℚ × ℚ)} {j : ℕ} {p : ℚ}
    (hadj : stageAdjB stages = true) (hincr : stageIncrB stages = true)
    (hj : InStage stages j p) : (stages.getD 0 (0, 1)).1 ≤ p := by
  induction stages generalizing j with
  | nil => exact absurd hj.1 (by simp)
  | cons se rest ih =>
    cases j with
    | zero => simpa using hj.2.1
    | succ j2 =>
      have hj2 : InStage rest j2 p :=
        ⟨by simpa using hj.1, by simpa [List.getD_cons_succ] using hj.2⟩
      cases rest with
      | nil => exact absurd hj2.1 (by simp)
      | cons se2 rest2 =>
        have hadj2 : se.2 = se2.1 ∧ stageAdjB (se2 :: rest2) = true := by
          have := hadj
          simp only [stageAdjB, Bool.and_eq_true, beq_iff_eq] at this
          exact this
        have hincr2 : stageIncrB (se2 :: rest2) = true := by
          have h2 := hincr
          simp only [stageIncrB, List.all_cons, Bool.and_eq_true] at h2
          simp only [stageIncrB, List.all_cons, Bool.and_eq_true]
          exact h2.2
        have h0 : ((se2 :: rest2).getD 0 (0, 1)).1 ≤ p := ih hadj2.2 hincr2 hj2
        have hse : se.1 < se.2 := by
          have := hincr
          simp only [stageIncrB, List.all_cons, Bool.and_eq_true, decide_eq_true_eq] at this
          exact this.1
        simp only [List.getD_cons_zero] at h0 ⊢
        rw [← hadj2.1] at h0
        linarith

theorem inStage_unique {stages : List (ℚ × ℚ)} {i j : ℕ} {p : ℚ}
    (hadj : stageAdjB stages = true) (hincr : stageIncrB stages = true)
    (hi : InStage stages i p) (hj : InStage stages j p) : i = j := by
  induction stages generalizing i j with
  | nil => exact absurd hi.1 (by simp)
  | cons se rest ih =>
    have tails : stageAdjB rest = true ∧ stageIncrB rest = true := by
      cases rest with
      | nil => exact ⟨rfl, rfl⟩
      | cons se2 rest2 =>
        have h1 := hadj
        have h2 := hincr
        simp only [stageAdjB, Bool.and_eq_true, beq_iff_eq] at h1
        simp only [stageIncrB, List.all_cons, Bool.and_eq_true] at h2
        refine ⟨h1.2, ?_⟩
        simp only [stageIncrB, List.all_cons, Bool.and_eq_true]
        exact h2.2
    have key : ∀ j2, InStage rest j2 p → ¬p < se.2 := by
      intro j2 hj2 hplt
      have h0 := inStage_head_le tails.1 tails.2 hj2
      cases rest with
      | nil => exact absurd hj2.1 (by simp)
      | cons se2 rest2 =>
        have h1 := hadj
        simp only [stageAdjB, Bool.and_eq_true, beq_iff_eq] at h1
        simp only [List.getD_cons_zero] at h0
        rw [← h1.1] at h0
        linarith
    cases i with
    | zero =>
      cases j with
      | zero => rfl
      | succ j2 =>
        have hj2 : InStage rest j2 p :=
          ⟨by simpa using hj.1, by simpa [List.getD_cons_succ] using hj.2⟩
        exact absurd (by simpa using hi.2.2) (key j2 hj2)
    | succ i2 =>
      cases j with
      | zero =>
        have hi2 : InStage rest i2 p :=
          ⟨by simpa using hi.1, by simpa [List.getD_cons_succ] using hi.2⟩
        exact absurd (by simpa using hj.2.2) (key i2 hi2)
      | succ j2 =>
        have hi2 : InStage rest i2 p :=
          ⟨by simpa using hi.1, by simpa [List.getD_cons_succ] using hi.2⟩
        have hj2 : InStage rest j2 p :=
          ⟨by simpa using hj.1, by simpa [List.getD_cons_succ] using hj.2⟩
        exact congrArg Nat.succ (ih tails.1 tails.2 hi2 hj2)

theorem localProg_mem {stages : List (ℚ × ℚ)} {p : ℚ} (hincr : stageIncrB stages = true)
    (hsel : InStage stages (chainSelect p stages) p) :
    0 ≤ localProg stages p ∧ localProg stages p ≤ 1 := by
  have hmem : stages.getD (chainSelect p stages) (0, 1) ∈ stages := by
    rw [List.getD_eq_getElem stages (0, 1) hsel.1]
    exact List.getElem_mem hsel.1
  have hlt : (stages.getD (chainSelect p stages) (0, 1)).1
      < (stages.getD (chainSelect p stages) (0, 1)).2 := by
    have := hincr
    simp only [stageIncrB, List.all_eq_true, decide_eq_true_eq] at this
    exact this _ hmem
  unfold localProg
  constructor
  · exact div_nonneg (by linarith [hsel.2.1]) (by linarith)
  · rw [div_le_one (by linarith)]
    linarith [hsel.2.2]

theorem chain_exists_unique_and_local (stages : List (ℚ × ℚ)) (p : ℚ)
    (hne : stages ≠ []) (hadj : stageAdjB stages = true) (hincr : stageIncrB stages = true)
    (hh : (stages.getD 0 (0, 1)).1 = 0)
    (hl : (stages.getD (stages.length - 1) (0, 1)).2 = 1)
    (hp0 : 0 ≤ p) (hp1 : p < 1) :
    (∃! i, InStage stages i p) ∧ InStage stages (chainSelect p stages) p ∧
    0 ≤ localProg stages p ∧ localProg stages p ≤ 1 := by
  have hsel := chainSelect_correct stages p hne hadj (by rw [hh]; exact hp0)
    (by rw [hl]; exact hp1)
  exact ⟨⟨_, hsel, fun y hy => inStage_unique hadj hincr hy hsel⟩, hsel,
    (localProg_mem hincr hsel).1, (localProg_mem hincr hsel).2⟩

/-- C1: for every content kind and every `frameIndex` in `[0, totalFrames)`
with `totalFrames > 0`, the `if/elif/else` chain over
`globalProgress = frameIndex / totalFrames` selects exactly one stage, the
`section_progress` it computes lies in `[0, 1]`, and the stage bounds of
each sequence partition `[0, 1]`: first start `0`, last end `1`, and each
stage's end equal to the next stage's start. -/
theorem stage_chain_partition (anim : AnimType) (totalFrames frameIdx : ℕ)
    (h0 : 0 < totalFrames) (hi : frameIdx < totalFrames) :
    ((stagesOf anim).getD 0 (0, 1)).1 = 0 ∧
    ((stagesOf anim).getD ((stagesOf anim).length - 1) (0, 1)).2 = 1 ∧
    (∀ i, i < (stagesOf anim).length - 1 →
      ((stagesOf anim).getD i (0, 1)).2 = ((stagesOf anim).getD (i + 1) (0, 1)).1) ∧
    (∃! i, InStage (stagesOf anim) i ((frameIdx : ℚ) / (totalFrames : ℚ))) ∧
    InStage (stagesOf anim) (chainSelect ((frameIdx : ℚ) / (totalFrames : ℚ)) (stagesOf anim))
      ((frameIdx : ℚ) / (totalFrames : ℚ)) ∧
    0 ≤ localProg (stagesOf anim) ((frameIdx : ℚ) / (totalFrames : ℚ)) ∧
    localProg (stagesOf anim) ((frameIdx : ℚ) / (totalFrames : ℚ)) ≤ 1 := by
  have hp0 : (0 : ℚ) ≤ (frameIdx : ℚ) / (totalFrames : ℚ) :=
    div_nonneg (Nat.cast_nonneg _) (Nat.cast_nonneg _)
  have hp1 : (frameIdx : ℚ) / (totalFrames : ℚ) < 1 := by
    rw [div_lt_one (by exact_mod_cast h0)]
    exact_mod_cast hi
  cases anim <;>
  · refine ⟨by norm_num [stagesOf, mathAdditionStages, formulaStages, pythagoreanStages,
        stepByStepStages],
      by norm_num [stagesOf, mathAdditionStages, formulaStages, pythagoreanStages,
        stepByStepStages],
      ?_,
      chain_exists_unique_and_local _ _
        (by simp [stagesOf, mathAdditionStages, formulaStages, pythagoreanStages,
          stepByStepStages])
        (by norm_num [stagesOf, stageAdjB, mathAdditionStages, formulaStages, pythagoreanStages,
          stepByStepStages])
        (by norm_num [stagesOf, stageIncrB, mathAdditionStages, formulaStages, pythagoreanStages,
          stepByStepStages])
        (by norm_num [stagesOf, mathAdditionStages, formulaStages, pythagoreanStages,
          stepByStepStages])
        (by norm_num [stagesOf, mathAdditionStages, formulaStages, pythagoreanStages,
          stepByStepStages])
        hp0 hp1⟩
    intro i hi
    simp only [stagesOf, mathAdditionStages, formulaStages, pythagoreanStages, stepByStepStages,
      List.length_cons, List.length_nil] at hi
    interval_cases i <;>
      norm_num [stagesOf, mathAdditionStages, formulaStages, pythagoreanStages, stepByStepStages]

/-- Witness for C1 at `totalFrames = 450` (15 s × 30 fps), `frameIndex = 100`,
on the math-addition chain. -/
theorem stage_chain_partition_witness :
    ((stagesOf .mathAddition).getD 0 (0, 1)).1 = 0 ∧
    ((stagesOf .mathAddition).getD ((stagesOf .mathAddition).length - 1) (0, 1)).2 = 1 ∧
    (∀ i, i < (stagesOf .mathAddition).length - 1 →
      ((stagesOf .mathAddition).getD i (0, 1)).2 = ((stagesOf .mathAddition).getD (i + 1) (0, 1)).1) ∧
    (∃! i, InStage (stagesOf .mathAddition) i (((100 : ℕ) : ℚ) / ((450 : ℕ) : ℚ))) ∧
    InStage (stagesOf .mathAddition)
      (chainSelect (((100 : ℕ) : ℚ) / ((450 : ℕ) : ℚ)) (stagesOf .mathAddition))
      (((100 : ℕ) : ℚ) / ((450 : ℕ) : ℚ)) ∧
    0 ≤ localProg (stagesOf .mathAddition) (((100 : ℕ) : ℚ) / ((450 : ℕ) : ℚ)) ∧
    localProg (stagesOf .mathAddition) (((100 : ℕ) : ℚ) / ((450 : ℕ) : ℚ)) ≤ 1 :=
  stage_chain_partition .mathAddition 450 100 (by decide) (by decide)

/-- C3: when fewer than two digit tokens occur in `topic + " " + explanation`,
`_create_math_addition_frame` falls back to `_create_step_by_step_frame`
(lines 120-122, 177-179): every frame equals the generic render, no numeric
stage runs. -/
theorem mathAddition_fallback (frameNum totalFrames : ℕ) (topic expl : List Char)
    (formulas : List (List Char))
    (h : (runsP pyIsDigit (topic ++ ' ' :: expl)).length < 2) :
    createMathAdditionFrame frameNum totalFrames topic expl formulas =
      createStepByStepFrame frameNum totalFrames topic expl formulas := by
  unfold createMathAdditionFrame
  rcases hr : runsP pyIsDigit (topic ++ ' ' :: expl) with _ | ⟨a, _ | ⟨b, t⟩⟩
  · simp only [hr]
  · simp only [hr]
  · rw [hr] at h
    simp only [List.length_cons] at h
    omega

/-- Witness for C3: `topic = "some text, no numbers"`, empty explanation. -/
theorem mathAddition_fallback_witness :
    (runsP pyIsDigit ("some text, no numbers".toList ++ ' ' :: ([] : List Char))).length < 2 ∧
    createMathAdditionFrame 0 30 "some text, no numbers".toList [] [] =
      createStepByStepFrame 0 30 "some text, no numbers".toList [] [] :=
  ⟨by decide, mathAddition_fallback 0 30 "some text, no numbers".toList [] [] (by decide)⟩

/-- C4: with at least two digit tokens, the operands are the first two tokens
of `topic + " " + explanation` in order, the result is always `num1 + num2`
(line 125, even when the matched operator was `-`), and the final stage draws
the conclusion text `f"{num1} + {num2} = {result}"` (lines 173-176). -/
theorem mathAddition_conclusion (frameNum totalFrames : ℕ) (topic expl : List Char)
    (formulas : List (List Char)) (n1 n2 : List Char) (rest : List (List Char))
    (hr : runsP pyIsDigit (topic ++ ' ' :: expl) = n1 :: n2 :: rest)
    (hp : (85 : ℚ)/100 ≤ (frameNum : ℚ) / (totalFrames : ℚ)) :
    createMathAdditionFrame frameNum totalFrames topic expl formulas =
      [DrawOp.conclusion
        (Nat.toDigits 10 (digitsToNat n1) ++ " + ".toList ++ Nat.toDigits 10 (digitsToNat n2)
          ++ " = ".toList ++ Nat.toDigits 10 (digitsToNat n1 + digitsToNat n2))
        (((frameNum : ℚ) / (totalFrames : ℚ) - 85/100) / (15/100))] := by
  have h1 : ¬((frameNum : ℚ) / (totalFrames : ℚ) < 15/100) := by intro hx; linarith
  have h2 : ¬((frameNum : ℚ) / (totalFrames : ℚ) < 35/100) := by intro hx; linarith
  have h3 : ¬((frameNum : ℚ) / (totalFrames : ℚ) < 45/100) := by intro hx; linarith
  have h4 : ¬((frameNum : ℚ) / (totalFrames : ℚ) < 65/100) := by intro hx; linarith
  have h5 : ¬((frameNum : ℚ) / (totalFrames : ℚ) < 85/100) := by intro hx; linarith
  unfold createMathAdditionFrame
  simp only [hr, if_neg h1, if_neg h2, if_neg h3, if_neg h4, if_neg h5]

/-- Witness for C4: topic `"7 - 4"` (a subtraction input) at frame 17 of 20:
the conclusion renders as `"7 + 4 = 11"`. -/
theorem mathAddition_conclusion_witness :
    createMathAdditionFrame 17 20 "7 - 4".toList [] [] =
      [DrawOp.conclusion "7 + 4 = 11".toList
        ((((17 : ℕ) : ℚ) / ((20 : ℕ) : ℚ) - 85/100) / (15/100))] := by
  rw [mathAddition_conclusion 17 20 "7 - 4".toList [] [] "7".toList "4".toList []
    (by decide) (by norm_num)]
  norm_num
  decide

/-- C5: frame rendering is deterministic and stateless: the frame at index
`frameNum` of the render loop equals the per-frame builder invoked in
isolation on the same static arguments, and a second invocation with
identical arguments is identical (the drawing path of lines 59-80 reads no
time-based, random, or inter-frame state). -/
theorem frame_determinism (anim : AnimType) (totalFrames frameNum : ℕ) (topic expl : List Char)
    (formulas : List (List Char)) (h : frameNum < totalFrames) :
    (renderedFrames anim totalFrames topic expl formulas).getD frameNum [] =
      buildFrame anim frameNum totalFrames topic expl formulas ∧
    buildFrame anim frameNum totalFrames topic expl formulas =
      buildFrame anim frameNum totalFrames topic expl formulas := by
  refine ⟨?_, rfl⟩
  unfold renderedFrames
  rw [List.getD_eq_getElem?_getD, List.getElem?_map, List.getElem?_range h]
  rfl

/-- Witness for C5 at `totalFrames = 3`, `frameNum = 1`. -/
theorem frame_determinism_witness :
    (renderedFrames .stepByStep 3 "t".toList "e".toList []).getD 1 [] =
      buildFrame .stepByStep 1 3 "t".toList "e".toList [] :=
  (frame_determinism .stepByStep 3 1 "t".toList "e".toList [] (by decide)).1

/-- C9: `generate_video` (lines 27-90) either completes all
`duration * 30` frames and returns the output path, or returns `None`;
a failed render never returns a path to partial output. -/
theorem render_all_or_nothing (env : RenderEnv) (videosDir videoId topic expl : List Char)
    (formulas : List (List Char)) (duration : ℕ) :
    ((generateVideo env videosDir videoId topic expl formulas duration).1 =
        some (videoPath videosDir videoId) ∧
      (generateVideo env videosDir videoId topic expl formulas duration).2.length =
        duration * 30) ∨
    (generateVideo env videosDir videoId topic expl formulas duration).1 = none := by
  unfold generateVideo
  by_cases ho : env.openOk = true
  · by_cases hw : framesWrittenCount env (duration * 30) = duration * 30
    · left
      refine ⟨by simp [ho, hw], ?_⟩
      simp [ho, hw, renderedFrames]
    · right
      simp [ho, hw]
  · right
    rw [Bool.not_eq_true] at ho
    simp [ho]

theorem joinSp_singleton (w : List Char) : joinSp [w] = w := by
  simp [joinSp, List.intercalate]

theorem wrapLoop_lines_le (words : List (List Char)) :
    ∀ current, (∀ w ∈ words, w.length ≤ 70) →
    (current = [] ∨ (joinSp current).length ≤ 70) →
    ∀ l ∈ wrapLoop words current, l.length ≤ 70 := by
  induction words with
  | nil =>
    intro current _ hc l hl
    unfold wrapLoop at hl
    by_cases hce : current.isEmpty
    · rw [if_pos hce] at hl
      cases hl
    · rw [if_neg hce] at hl
      rcases hc with rfl | hc
      · simp at hce
      · rw [List.mem_singleton.1 hl]
        exact hc
  | cons w ws ih =>
    intro current hw hc l hl
    unfold wrapLoop at hl
    by_cases ht : (joinSp (current ++ [w])).length ≤ 70
    · rw [if_pos ht] at hl
      exact ih (current ++ [w]) (fun x hx => hw x (by simp [hx])) (Or.inr ht) l hl
    · rw [if_neg ht] at hl
      have hwword : (joinSp [w]).length ≤ 70 := by
        rw [joinSp_singleton]
        exact hw w (by simp)
      by_cases hce : current.isEmpty
      · rw [if_pos hce] at hl
        exact ih [w] (fun x hx => hw x (by simp [hx])) (Or.inr hwword) l hl
      · rw [if_neg hce] at hl
        rcases List.mem_cons.1 hl with rfl | hl2
        · rcases hc with rfl | hc
          · simp at hce
          · exact hc
        · exact ih [w] (fun x hx => hw x (by simp [hx])) (Or.inr hwword) l hl2

theorem floor_nat_half (L : ℕ) : ⌊(L : ℚ) * (1/2)⌋ = (L / 2 : ℕ) := by
  have h : (L : ℚ) * (1/2) = ((L : ℕ) : ℚ) / ((2 : ℕ) : ℚ) := by push_cast; ring
  rw [h, Rat.floor_natCast_div_natCast]
  norm_cast

/-- C6 (amended): the wrapped-paragraph primitive greedily wraps at 70
characters (every line at most 70 when no word exceeds 70), keeps at most the
first 10 lines, draws `min(lineCount, floor(lineCount*alpha)+1)` lines —
which equals `floor(lineCount*0.5)+1` at `alpha = 1/2` whenever at least one
line exists — is non-decreasing in alpha, and draws all lines at `alpha = 1`
(lines 455-483). -/
theorem wrapped_paragraph (text : List Char) (α α2 : ℚ) (hα : 0 ≤ α) :
    ((∀ w ∈ splitWords text, w.length ≤ 70) → ∀ l ∈ wrapText text, l.length ≤ 70) ∧
    (wrapText text).length ≤ 10 ∧
    (drawnLines text α).length = numLinesToShow (wrapText text).length α ∧
    numLinesToShow (wrapText text).length α =
      min (wrapText text).length ((⌊((wrapText text).length : ℚ) * α⌋).toNat + 1) ∧
    (1 ≤ (wrapText text).length →
      numLinesToShow (wrapText text).length (1/2) = (wrapText text).length / 2 + 1) ∧
    (α ≤ α2 → numLinesToShow (wrapText text).length α ≤ numLinesToShow (wrapText text).length α2) ∧
    (α = 1 → numLinesToShow (wrapText text).length α = (wrapText text).length) := by
  refine ⟨?_, ?_, ?_, ?_, ?_, ?_, ?_⟩
  · intro hw l hl
    exact wrapLoop_lines_le (splitWords text) [] hw (Or.inl rfl) l (List.mem_of_mem_take hl)
  · simp only [wrapText, List.length_take]
    exact min_le_left _ _
  · simp only [drawnLines, List.length_take]
    exact min_eq_left (min_le_left _ _)
  · simp only [numLinesToShow, pyInt,
      if_pos (mul_nonneg (Nat.cast_nonneg (wrapText text).length) hα)]
  · intro hL
    simp only [numLinesToShow, pyInt,
      if_pos (mul_nonneg (Nat.cast_nonneg (wrapText text).length) (by norm_num : (0:ℚ) ≤ 1/2)),
      floor_nat_half, Int.toNat_natCast]
    exact min_eq_right (by omega)
  · intro hle
    have hα2 : (0 : ℚ) ≤ α2 := le_trans hα hle
    simp only [numLinesToShow, pyInt,
      if_pos (mul_nonneg (Nat.cast_nonneg (wrapText text).length) hα),
      if_pos (mul_nonneg (Nat.cast_nonneg (wrapText text).length) hα2)]
    refine min_le_min le_rfl (Nat.add_le_add_right (Int.toNat_le_toNat ?_) 1)
    exact Int.floor_le_floor (mul_le_mul_of_nonneg_left hle (Nat.cast_nonneg _))
  · rintro rfl
    simp only [numLinesToShow, pyInt, mul_one,
      if_pos (Nat.cast_nonneg (wrapText text).length : (0:ℚ) ≤ _),
      Int.floor_natCast, Int.toNat_natCast]
    exact min_eq_left (Nat.le_succ _)

/-- Counterexample to C6 as literally stated: with an empty explanation the
wrap produces zero lines, and at `alpha = 1/2` the primitive draws zero
lines, not `floor(lineCount * 0.5) + 1 = 1`. -/
theorem wrapped_paragraph_cex :
    (drawnLines [] (1/2)).length ≠
      (pyInt (((wrapText ([] : List Char)).length : ℚ) * (1/2))).toNat + 1 := by
  have hwt : wrapText ([] : List Char) = [] := rfl
  simp [drawnLines, hwt, pyInt]

theorem galleryItemsToShow_one (count : ℕ) :
    galleryItemsToShow count 1 = galleryVisibleCount count := by
  simp [galleryItemsToShow, pyInt, Int.floor_natCast]

/-- C7 (amended): the gallery draws exactly
`floor(min(count, 10) * alpha)` markers in a grid of at most 5 columns, and
the `"xN"` count suffix is drawn exactly when `count > 10` and at least one
marker is shown (`floor(min(count, 10) * alpha) ≥ 1`) — in particular it is
drawn at `alpha = 1` whenever `count > 10` (lines 183-229). -/
theorem objects_gallery (count : ℕ) (x y : ℤ) (α : ℚ) (label : List Char) :
    (drawObjectsGroup count x y α label).countP isMarkerOp = galleryItemsToShow count α ∧
    galleryCols count ≤ 5 ∧
    (∀ mx my, GalleryOp.marker mx my ∈ drawObjectsGroup count x y α label →
      ∃ i, i < galleryItemsToShow count α ∧
        mx = galleryStartX count x + ((i % galleryCols count : ℕ) : ℤ) * 60 ∧
        my = galleryStartY count y + ((i / galleryCols count : ℕ) : ℤ) * 60) ∧
    ((∃ t sx sy, GalleryOp.countSuffix t sx sy ∈ drawObjectsGroup count x y α label) ↔
      10 < count ∧ 1 ≤ galleryItemsToShow count α) ∧
    (α = 1 → 10 < count →
      ∃ t sx sy, GalleryOp.countSuffix t sx sy ∈ drawObjectsGroup count x y α label) := by
  have hcols : galleryCols count ≤ 5 := min_le_left _ _
  by_cases hit : galleryItemsToShow count α = 0
  · have htr : drawObjectsGroup count x y α label = [] := by
      simp only [drawObjectsGroup]
      rw [if_pos hit]
    refine ⟨?_, hcols, ?_, ?_, ?_⟩
    · rw [htr, hit]
      rfl
    · intro mx my hmem
      rw [htr] at hmem
      cases hmem
    · rw [htr]
      constructor
      · rintro ⟨t, sx, sy, hm⟩
        cases hm
      · rintro ⟨-, h1⟩
        omega
    · rintro rfl h10
      exfalso
      rw [galleryItemsToShow_one] at hit
      simp only [galleryVisibleCount] at hit
      omega
  · have htr : drawObjectsGroup count x y α label =
        (if label ≠ [] ∧ 1/2 < α then
          [GalleryOp.labelText label (galleryStartX count x) (galleryStartY count y - 40)]
         else [])
        ++ ((List.range (galleryItemsToShow count α)).map fun i =>
            GalleryOp.marker (galleryStartX count x + ((i % galleryCols count : ℕ) : ℤ) * 60)
              (galleryStartY count y + ((i / galleryCols count : ℕ) : ℤ) * 60))
        ++ (if 10 < count then
            [GalleryOp.countSuffix ('x' :: Nat.toDigits 10 count)
              (galleryStartX count x) (galleryStartY count y + (galleryRows count * 60 : ℕ) + 40)]
           else []) := by
      simp only [drawObjectsGroup]
      rw [if_neg hit]
    refine ⟨?_, hcols, ?_, ?_, ?_⟩
    · rw [htr]
      simp only [List.countP_append, List.countP_map]
      have h1 : (List.countP isMarkerOp
          (if label ≠ [] ∧ 1/2 < α then
            [GalleryOp.labelText label (galleryStartX count x) (galleryStartY count y - 40)]
           else [])) = 0 := by
        split <;> simp [List.countP_cons, isMarkerOp]
      have h3 : (List.countP isMarkerOp
          (if 10 < count then
            [GalleryOp.countSuffix ('x' :: Nat.toDigits 10 count)
              (galleryStartX count x) (galleryStartY count y + (galleryRows count * 60 : ℕ) + 40)]
           else [])) = 0 := by
        split <;> simp [List.countP_cons, isMarkerOp]
      rw [h1, h3]
      simp [Function.comp_def, isMarkerOp, List.countP_true]
    · intro mx my hmem
      rw [htr] at hmem
      simp only [List.mem_append] at hmem
      rcases hmem with (hm | hm) | hm
      · exfalso
        revert hm
        split <;> simp
      · obtain ⟨i, hi, heq⟩ := List.mem_map.1 hm
        injection heq with he1 he2
        exact ⟨i, List.mem_range.1 hi, he1.symm, he2.symm⟩
      · exfalso
        revert hm
        split <;> simp
    · rw [htr]
      constructor
      · rintro ⟨t, sx, sy, hm⟩
        simp only [List.mem_append] at hm
        rcases hm with (hm | hm) | hm
        · exfalso
          revert hm
          split <;> simp
        · exfalso
          obtain ⟨i, -, heq⟩ := List.mem_map.1 hm
          cases heq
        · revert hm
          split
          · rename_i h10
            intro _
            exact ⟨h10, Nat.one_le_iff_ne_zero.2 hit⟩
          · intro hm
            cases hm
      · rintro ⟨h10, -⟩
        refine ⟨'x' :: Nat.toDigits 10 count, galleryStartX count x,
          galleryStartY count y + (galleryRows count * 60 : ℕ) + 40, ?_⟩
        simp [List.mem_append, h10]
    · rintro rfl h10
      rw [htr]
      refine ⟨'x' :: Nat.toDigits 10 count, galleryStartX count x,
        galleryStartY count y + (galleryRows count * 60 : ℕ) + 40, ?_⟩
      simp [List.mem_append, h10]

/-- Witness for C7's conditional parts: a concrete marker of the
3-object gallery sits on the grid, and at `count = 12`, `alpha = 1` the
count suffix is present. -/
theorem objects_gallery_witness :
    (∃ i, i < galleryItemsToShow 3 1 ∧
      (110 : ℤ) = galleryStartX 3 200 + ((i % galleryCols 3 : ℕ) : ℤ) * 60 ∧
      (270 : ℤ) = galleryStartY 3 300 + ((i / galleryCols 3 : ℕ) : ℤ) * 60) ∧
    (∃ t sx sy, GalleryOp.countSuffix t sx sy ∈ drawObjectsGroup 12 200 300 1 []) :=
  ⟨(objects_gallery 3 200 300 1 []).2.2.1 110 270 (by
      have h3 : galleryItemsToShow 3 1 = 3 := by rw [galleryItemsToShow_one]; rfl
      simp only [drawObjectsGroup, h3]
      rw [if_neg (by simp), if_neg (by norm_num)]
      decide),
   (objects_gallery 12 200 300 1 []).2.2.2.2 rfl (by norm_num)⟩

/-- Counterexample to C7 as literally stated: at `count = 12` and
`alpha = 1/2 ≠ 1` the `"xN"` suffix is already drawn. -/
theorem objects_gallery_cex :
    (∃ t sx sy, GalleryOp.countSuffix t sx sy ∈ drawObjectsGroup 12 200 300 (1/2) []) ∧
    (1/2 : ℚ) ≠ 1 := by
  constructor
  · have h5 : galleryItemsToShow 12 (1/2) = 5 := by
      simp only [galleryItemsToShow, galleryVisibleCount, pyInt]
      norm_num
      rfl
    refine ⟨'x' :: Nat.toDigits 10 12, galleryStartX 12 200,
      galleryStartY 12 300 + (galleryRows 12 * 60 : ℕ) + 40, ?_⟩
    simp only [drawObjectsGroup, h5]
    norm_num
  · norm_num

/-- C10: the gallery primitive is total and safe: when
`int(min(count, 10) * alpha) = 0` it returns before the grid layout, leaving
the canvas untouched, and whenever it proceeds the column divisor
`min(5, min(count, 10))` is positive (lines 183-198). -/
theorem gallery_zero_guard (count : ℕ) (x y : ℤ) (α : ℚ) (label : List Char) :
    (galleryItemsToShow count α = 0 → drawObjectsGroup count x y α label = []) ∧
    (galleryItemsToShow count α ≠ 0 → 0 < galleryCols count) := by
  constructor
  · intro h
    simp only [drawObjectsGroup]
    rw [if_pos h]
  · intro h
    rcases Nat.eq_zero_or_pos count with rfl | hpos
    · exfalso
      apply h
      simp [galleryItemsToShow, galleryVisibleCount, pyInt]
    · simp only [galleryCols, galleryVisibleCount]
      omega

/-- Witness for C10: `count = 0` returns an empty trace at `alpha = 1`;
`count = 3` at `alpha = 1` proceeds with a positive column divisor. -/
theorem gallery_zero_guard_witness :
    drawObjectsGroup 0 200 300 1 [] = [] ∧ 0 < galleryCols 3 :=
  ⟨(gallery_zero_guard 0 200 300 1 []).1 (by
      simp [galleryItemsToShow, galleryVisibleCount, pyInt]),
   (gallery_zero_guard 3 200 300 1 []).2 (by
      rw [galleryItemsToShow_one]
      simp [galleryVisibleCount])⟩

/-- C8: `_draw_title` truncates any title longer than 50 characters to its
first 47 characters plus `"..."` (total exactly 50), leaves shorter titles
unchanged, and draws an underline of length `int(textWidth * alpha)`,
i.e. `floor(textWidth * alpha)` (lines 429-453). -/
theorem title_card (t : List Char) (w : ℕ) (α : ℚ) (hα : 0 ≤ α) :
    (50 < t.length →
      truncateTitle t = t.take 47 ++ "...".toList ∧ (truncateTitle t).length = 50) ∧
    (t.length ≤ 50 → truncateTitle t = t) ∧
    underlineLength w α = ⌊(w : ℚ) * α⌋ := by
  have hdots : ("...".toList).length = 3 := by decide
  refine ⟨fun h => ⟨?_, ?_⟩, fun h => ?_, ?_⟩
  · simp [truncateTitle, h]
  · simp only [truncateTitle, if_pos h, List.length_append, List.length_take, hdots]
    omega
  · simp [truncateTitle, Nat.not_lt.2 h]
  · simp only [underlineLength, pyInt, if_pos (mul_nonneg (Nat.cast_nonneg w) hα)]

/-- Witness for C8: a 60-character title truncates to exactly 50 characters. -/
theorem title_card_witness :
    50 < (List.replicate 60 'a').length ∧ (truncateTitle (List.replicate 60 'a')).length = 50 :=
  ⟨by decide, ((title_card (List.replicate 60 'a') 0 0 le_rfl).1 (by decide)).2⟩

/-- Witness for C2: `"5 + 3"` classifies as the numeric-combination kind. -/
theorem detect_animation_type_priority_witness :
    detectAnimationType "5 + 3".toList "x".toList [] = .mathAddition :=
  (detect_animation_type_priority "5 + 3".toList "x".toList []).1.2
    (Or.inl ⟨[], ['5'], [' '], '+', [' '], '3', [], by decide, by decide, by decide, by decide,
      Or.inl rfl, by decide, by decide⟩)

/-- Witness for C6 on `"hello world"`: every wrapped line fits in 70
characters and the half-reveal count matches. -/
theorem wrapped_paragraph_witness :
    (∀ l ∈ wrapText "hello world".toList, l.length ≤ 70) ∧
    numLinesToShow (wrapText "hello world".toList).length (1/2) =
      (wrapText "hello world".toList).length / 2 + 1 :=
  ⟨(wrapped_paragraph "hello world".toList (1/2) 1 (by norm_num)).1 (by decide),
   (wrapped_paragraph "hello world".toList (1/2) 1 (by norm_num)).2.2.2.2.1 (by decide)⟩

end VideoGen
